import Mathlib

/-!
Verification development for the `dpy-ui` repository (discord.ext.ui):
a shallow embedding, in Lean 4, of the session dispatch core
(`src/discord/ext/ui/session.py`), the selection helpers
(`src/discord/ext/ui/helpers.py`) and the paginator
(`src/discord/ext/ui/paginator.py`), together with theorems settling the
behavioural claims about those components.

Conventions of the embedding:
* Python dicts become ordered association lists (`Dict`): insertion keeps
  the position of an existing key, new keys are appended — exactly the
  observable behaviour of CPython 3.7+ dicts.
* Python object identity (`is`) for the copy-on-write trigger tables is made
  explicit with a small heap: a `Store` of tables addressed by `Nat`s, so two
  distinct refs may hold equal tables (distinct objects with equal contents).
* `re.fullmatch` on a command pattern is embedded as the pattern's matching
  function `String → Option (List String)`: `some groups` when the pattern
  matches the ENTIRE text, `none` otherwise.  `re.match` (prefix matching,
  used by the selector's text input) is embedded as an oracle
  `String → String → Bool` taking the pattern and the input.
* Exceptions become `Except`; the async loop becomes a pure recursion over
  the list of queue events the `asyncio.wait_for` calls observe.
-/

set_option autoImplicit false

namespace DpyUI

/-! ## Ordered dictionaries (Python dict semantics) -/

/-- A Python dict: an insertion-ordered association list with unique keys
(uniqueness is an invariant of how the code builds them, not of the type). -/
abbrev Dict (K V : Type) := List (K × V)

/-- Python `d[k]` lookup (first entry with the key). -/
def Dict.get? {K V : Type} [DecidableEq K] : Dict K V → K → Option V
  | [], _ => none
  | p :: rest, k => if p.1 = k then some p.2 else Dict.get? rest k

/-- Python `k in d`. -/
def Dict.hasKey {K V : Type} [DecidableEq K] : Dict K V → K → Bool
  | [], _ => false
  | p :: rest, k => decide (p.1 = k) || Dict.hasKey rest k

/-- Python `d[k] = v`: overwrites in place when the key exists (keeping its
position), appends otherwise. -/
def Dict.insert {K V : Type} [DecidableEq K] (d : Dict K V) (k : K) (v : V) : Dict K V :=
  if d.hasKey k then d.map (fun p => if p.1 = k then (k, v) else p) else d ++ [(k, v)]

/-- Python `d.pop(k, None)`: removes the key when present, no-op otherwise. -/
def Dict.pop {K V : Type} [DecidableEq K] : Dict K V → K → Dict K V
  | [], _ => []
  | p :: rest, k => if p.1 = k then Dict.pop rest k else p :: Dict.pop rest k

/-! ## Emoji keys and `_parse_emoji` (session.py lines 24-32) -/

/-- A trigger emoji key: a Python `int` (custom emoji id) or `str`. -/
inductive EKey : Type
  | num (n : Int)
  | str (s : String)
  deriving DecidableEq

/-- Python `[a-zA-Z0-9_]`, the name part of the custom-emoji pattern. -/
def isNameChar (c : Char) : Bool :=
  c.isAlphanum || c == '_'

def digitsVal (l : List Char) : Nat :=
  l.foldl (fun acc c => acc * 10 + (c.toNat - '0'.toNat)) 0

/-- Python `re.fullmatch(r'<a?:[a-zA-Z0-9\_]+:([0-9]+)>$', s)`, returning the value
of the captured digit group.  The regex is deterministic: after `<` either
`a:` or `:` must follow (backtracking on `a?` cannot succeed otherwise since
the next literal is `:`), the name part cannot contain `:`, and the digits
cannot contain `>`. -/
def parseCustomEmoji (cs : List Char) : Option Nat :=
  match cs with
  | '<' :: rest =>
    let afterColon : Option (List Char) :=
      match rest with
      | 'a' :: ':' :: r => some r
      | ':' :: r => some r
      | _ => none
    match afterColon with
    | none => none
    | some r =>
      let nm := r.takeWhile isNameChar
      let r2 := r.dropWhile isNameChar
      if nm.isEmpty then none
      else
        match r2 with
        | ':' :: r3 =>
          let ds := r3.takeWhile Char.isDigit
          let r4 := r3.dropWhile Char.isDigit
          if ds.isEmpty then none
          else
            match r4 with
            | ['>'] => some (digitsVal ds)
            | _ => none
        | _ => none
  | _ => none

/-- Python `_parse_emoji`: ints pass through, strings of the custom-emoji shape
`<a?:name:id>` normalise to the numeric id, all other strings pass through. -/
def _parse_emoji (e : EKey) : EKey :=
  match e with
  | EKey.num n => EKey.num n
  | EKey.str s =>
    match parseCustomEmoji s.toList with
    | some id => EKey.num (Int.ofNat id)
    | none => EKey.str s

/-! ## `__init_subclass__` trigger-table merge (session.py lines 109-145) -/

/-- The three frozen trigger tables attached to a class; handlers are
identified by numeric ids. -/
structure Tables3 where
  buttons : Dict EKey Nat
  commands : Dict String Nat
  unbuttons : Dict EKey Nat

/-- What `getattr(b, field, None)` sees on one ancestor: `none` for classes
without the attribute (e.g. `object`), otherwise that class's table. -/
structure AncAttrs where
  buttons : Option (Dict EKey Nat)
  commands : Option (Dict String Nat)
  unbuttons : Option (Dict EKey Nat)

/-- Python `base_class_attr_update`: skip when the attribute is missing or the
table falsy (empty); otherwise copy every entry into the accumulator,
overwriting earlier entries of the same key. -/
def updateFrom {K V : Type} [DecidableEq K] (acc : Dict K V) (t : Option (Dict K V)) :
    Dict K V :=
  match t with
  | none => acc
  | some d => if d.isEmpty then acc else d.foldl (fun m p => m.insert p.1 p.2) acc

/-- One member of the new class's `__dict__`, in definition order: a handler
id with its optional `__ui_button__` tag (emoji, press) and optional
`__ui_command__` pattern. -/
structure MemberDecl where
  id : Nat
  btn : Option (EKey × Bool)
  cmd : Option String

/-- The press (`press = true`) or release button key this member declares, if
any, already normalised by `_parse_emoji`. -/
def declBtnKey? (press : Bool) (d : MemberDecl) : Option EKey :=
  match d.btn with
  | none => none
  | some ep => if ep.2 = press then some (_parse_emoji ep.1) else none

/-- The command pattern this member declares, if any — `if command:` makes an
empty pattern string falsy, so it does not register. -/
def declCmdKey? (d : MemberDecl) : Option String :=
  match d.cmd with
  | none => none
  | some p => if p.isEmpty then none else some p

/-- Insert one declared member into the accumulated tables: the button tag
goes to the press or release table under the parsed emoji, then the command
tag goes to the command table. -/
def insertDecl (acc : Tables3) (d : MemberDecl) : Tables3 :=
  let acc1 :=
    match declBtnKey? true d with
    | some k => { acc with buttons := acc.buttons.insert k d.id }
    | none => acc
  let acc2 :=
    match declBtnKey? false d with
    | some k => { acc1 with unbuttons := acc1.unbuttons.insert k d.id }
    | none => acc1
  match declCmdKey? d with
  | some k => { acc2 with commands := acc2.commands.insert k d.id }
  | none => acc2

/-- Fold one ancestor's tables into the accumulators (the three
`base_class_attr_update` calls of the loop body). -/
def mergeAnc (acc : Tables3) (a : AncAttrs) : Tables3 :=
  { buttons := updateFrom acc.buttons a.buttons,
    commands := updateFrom acc.commands a.commands,
    unbuttons := updateFrom acc.unbuttons a.unbuttons }

/-- Python `Session.__init_subclass__`: walk `cls.__mro__[-1:0:-1]` — the ancestors
from most-base to most-derived, the class itself excluded — folding each
ancestor's tables into the accumulators (later, more derived ancestors
overwrite), then insert the class's own declarations in definition order. -/
def init_subclass (basesBaseFirst : List AncAttrs) (decls : List MemberDecl) : Tables3 :=
  decls.foldl insertDecl (basesBaseFirst.foldl mergeAnc ⟨[], [], []⟩)

/-- The handler of the most derived (last) own declaration registering key
`k` in the given button namespace. -/
def lastDeclBtn (decls : List MemberDecl) (press : Bool) (k : EKey) : Option Nat :=
  (decls.reverse.find? (fun d => decide (declBtnKey? press d = some k))).map MemberDecl.id

/-- The handler of the most derived (last) own declaration registering
command pattern `k`. -/
def lastDeclCmd (decls : List MemberDecl) (k : String) : Option Nat :=
  (decls.reverse.find? (fun d => decide (declCmdKey? d = some k))).map MemberDecl.id

/-- The lookup one optional ancestor table contributes: `none` when the
attribute is missing. -/
def ancGet {K V : Type} [DecidableEq K] (t : Option (Dict K V)) (q : K) : Option V :=
  match t with
  | none => none
  | some d => d.get? q

/-- The entry for `k` in the most derived ancestor button table containing
it. -/
def lastAncBtn (bases : List AncAttrs) (k : EKey) : Option Nat :=
  bases.reverse.findSome? (fun a => ancGet a.buttons k)

def lastAncUnbtn (bases : List AncAttrs) (k : EKey) : Option Nat :=
  bases.reverse.findSome? (fun a => ancGet a.unbuttons k)

def lastAncCmd (bases : List AncAttrs) (k : String) : Option Nat :=
  bases.reverse.findSome? (fun a => ancGet a.commands k)

/-- Keys of a table are unique — true of every table a Python class carries,
since they are dicts. -/
def dictWF {K V : Type} [DecidableEq K] (d : Dict K V) : Bool :=
  decide (d.map Prod.fst).Nodup

def optWF {K V : Type} [DecidableEq K] : Option (Dict K V) → Bool
  | none => true
  | some d => dictWF d

/-- Every table the ancestor carries has unique keys. -/
def ancWF (a : AncAttrs) : Bool :=
  optWF a.buttons && optWF a.commands && optWF a.unbuttons

/-! ## Copy-on-write instance trigger tables (session.py lines 149-236)

Python object identity (`is`), which `__check_ui_mapping` compares, is made
explicit with a heap: a store of table objects addressed by references.  The
class attributes hold three refs; `getattr(self, attr)` falls back to the
class attribute until `setattr` runs, so a fresh instance's refs equal the
class refs.  Other live instances of the same class are represented by the
`protected` ref sets in the theorems. -/

abbrev Store (T : Type) := List T

/-- Dereference (total: a dangling ref reads as an empty table; the theorems
only rely on live refs). -/
def readT {K V : Type} (s : Store (Dict K V)) (r : Nat) : Dict K V :=
  (s[r]?).getD []

/-- Python `Session.__check_ui_mapping`: when the instance's reference IS the class
object, clone the class table into a fresh object and point the instance at
it; otherwise leave everything alone.  Returns the store and the ref the
instance attribute holds afterwards. -/
def cowCheck {K V : Type} (store : Store (Dict K V)) (instRef clsRef : Nat) :
    Store (Dict K V) × Nat :=
  if instRef = clsRef then (store ++ [readT store clsRef], store.length)
  else (store, instRef)

/-- Mutate the table object a ref points at. -/
def mutateT {K V : Type} (store : Store (Dict K V)) (r : Nat)
    (f : Dict K V → Dict K V) : Store (Dict K V) :=
  store.set r (f (readT store r))

/-- The check-then-write step every mutation path performs. -/
def cowMutate {K V : Type} (store : Store (Dict K V)) (instRef clsRef : Nat)
    (f : Dict K V → Dict K V) : Store (Dict K V) × Nat :=
  let p := cowCheck store instRef clsRef
  (mutateT p.1 p.2 f, p.2)

/-- The class-attribute references set once by `__init_subclass__` (three
distinct dict objects). -/
structure ClsRefs where
  buttons : Nat
  unbuttons : Nat
  commands : Nat

/-- One instance's view: the two heaps (button-keyed tables in `bstore`,
pattern-keyed command tables in `cstore`) and the three attribute refs. -/
structure UIState where
  bstore : Store (Dict EKey Nat)
  cstore : Store (Dict String Nat)
  bref : Nat
  uref : Nat
  cref : Nat

/-- Python `Session.add_button`: parse the emoji, pick the press or release table,
run the copy-on-write check, write the callback. -/
def add_button (cls : ClsRefs) (st : UIState) (cb : Nat) (emoji : EKey)
    (unpress : Bool) : UIState :=
  let e := _parse_emoji emoji
  if unpress then
    let p := cowMutate st.bstore st.uref cls.unbuttons (fun d => d.insert e cb)
    { st with bstore := p.1, uref := p.2 }
  else
    let p := cowMutate st.bstore st.bref cls.buttons (fun d => d.insert e cb)
    { st with bstore := p.1, bref := p.2 }

/-- Python `Session.remove_button`: parse the emoji once, then for the press table
and then the release table run the copy-on-write check and pop the key (the
pop tolerating an absent key). -/
def remove_button (cls : ClsRefs) (st : UIState) (emoji : EKey) : UIState :=
  let e := _parse_emoji emoji
  let p1 := cowMutate st.bstore st.bref cls.buttons (fun d => d.pop e)
  let p2 := cowMutate p1.1 st.uref cls.unbuttons (fun d => d.pop e)
  { st with bstore := p2.1, bref := p1.2, uref := p2.2 }

/-- Python `Session.add_command`. -/
def add_command (cls : ClsRefs) (st : UIState) (cb : Nat) (pat : String) : UIState :=
  let p := cowMutate st.cstore st.cref cls.commands (fun d => d.insert pat cb)
  { st with cstore := p.1, cref := p.2 }

/-- Python `Session.remove_command`. -/
def remove_command (cls : ClsRefs) (st : UIState) (pat : String) : UIState :=
  let p := cowMutate st.cstore st.cref cls.commands (fun d => d.pop pat)
  { st with cstore := p.1, cref := p.2 }

/-- The four instance-level mutations of C3, as data. -/
inductive UIOp : Type
  | addButton (cb : Nat) (emoji : EKey) (unpress : Bool)
  | removeButton (emoji : EKey)
  | addCommand (cb : Nat) (pat : String)
  | removeCommand (pat : String)

def applyOp (cls : ClsRefs) (st : UIState) : UIOp → UIState
  | UIOp.addButton cb e u => add_button cls st cb e u
  | UIOp.removeButton e => remove_button cls st e
  | UIOp.addCommand cb p => add_command cls st cb p
  | UIOp.removeCommand p => remove_command cls st p

def applyOps (cls : ClsRefs) (st : UIState) : List UIOp → UIState
  | [] => st
  | op :: rest => applyOps cls (applyOp cls st op) rest

/-- Invariant tying an instance to the protected heap locations (`protB` in
the button heap, `protC` in the command heap): protected refs — the class
tables among them — are live, and each instance ref either still IS the
shared class object or is an unprotected object of the instance's own. -/
structure Inv (cls : ClsRefs) (protB protC : List Nat) (st : UIState) : Prop where
  clsB_mem : cls.buttons ∈ protB
  clsU_mem : cls.unbuttons ∈ protB
  clsC_mem : cls.commands ∈ protC
  protB_lt : ∀ r ∈ protB, r < st.bstore.length
  protC_lt : ∀ r ∈ protC, r < st.cstore.length
  bref_ok : st.bref = cls.buttons ∨ st.bref ∉ protB
  uref_ok : st.uref = cls.unbuttons ∨ st.uref ∉ protB
  cref_ok : st.cref = cls.commands ∨ st.cref ∉ protC

/-- Well-formedness used for C10: the class refs are live and distinct, and
each of the two button-kind instance refs is either still shared or a live
private object distinct from both class objects and from its sibling. -/
structure RBWF (cls : ClsRefs) (st : UIState) : Prop where
  clsB_lt : cls.buttons < st.bstore.length
  clsU_lt : cls.unbuttons < st.bstore.length
  clsBU : cls.buttons ≠ cls.unbuttons
  bref_ok : st.bref = cls.buttons ∨
    (st.bref < st.bstore.length ∧ st.bref ≠ cls.buttons ∧ st.bref ≠ cls.unbuttons ∧
      st.bref ≠ st.uref)
  uref_ok : st.uref = cls.unbuttons ∨
    (st.uref < st.bstore.length ∧ st.uref ≠ cls.buttons ∧ st.uref ≠ cls.unbuttons ∧
      st.bref ≠ st.uref)

/-! ## The session loop and `start` (session.py lines 317-389)

A queue event is what one `asyncio.wait_for(self._queue.get(), self.timeout)`
observes: either the next queue item arrives in time (`item` — a job, or the
`None` stop sentinel put by `Session.stop`), or the wait times out.  A job is
a bound callback: executing it transforms the session-visible state and may
raise (`Except.error`). -/

inductive LEvent (J : Type) : Type
  | item (i : Option J)
  | timeout

/-- How the drain loop ended.  `pending` models a loop still blocked on an
empty queue with no timeout configured (the loop never returns). -/
inductive LResult (E : Type) : Type
  | finished
  | timedOut
  | failed (e : E)
  | pending
  deriving DecidableEq

structure LJob (S E : Type) where
  id : Nat
  run : S → Except E S

structure LoopOut (S E : Type) where
  state : S
  ran : List Nat
  result : LResult E

/-- Python `Session.__loop`: block on the queue (with timeout); a timeout runs
`handle_timeout`, whose default body raises `asyncio.TimeoutError`; a dequeued
`None` breaks out of the loop; a dequeued job is awaited to completion before
the next dequeue, and an exception it raises propagates out of the loop. -/
def runLoop {S E : Type} : List (LEvent (LJob S E)) → S → LoopOut S E
  | [], s => ⟨s, [], LResult.pending⟩
  | LEvent.timeout :: _, s => ⟨s, [], LResult.timedOut⟩
  | LEvent.item none :: _, s => ⟨s, [], LResult.finished⟩
  | LEvent.item (some j) :: rest, s =>
    match j.run s with
    | Except.error e => ⟨s, [], LResult.failed e⟩
    | Except.ok s1 =>
      let out := runLoop rest s1
      ⟨out.state, j.id :: out.ran, out.result⟩

/-- A job that never raises, built from an id and a state transformer. -/
def pureJob {S E : Type} (p : Nat × (S → S)) : LJob S E :=
  ⟨p.1, fun s => Except.ok (p.2 s)⟩

/-- Observable actions of `Session.start`: job executions from the loop,
then the actions of `Session._cleanup`. -/
inductive SAct : Type
  | ranJob (id : Nat)
  | removeListener (which : Nat)
  | deleteMsg
  | clearReactions
  | clearMsgRef
  deriving DecidableEq

/-- Python `Session._cleanup`: remove the four listeners (on_message,
on_raw_reaction_add, on_raw_reaction_remove, on_raw_message_delete), then —
with `discord.HTTPException` suppressed — delete the message when
`delete_after` else clear its reactions, then set `self.message = None`. -/
def cleanupActs (deleteAfter : Bool) : List SAct :=
  [SAct.removeListener 0, SAct.removeListener 1, SAct.removeListener 2, SAct.removeListener 3]
    ++ [if deleteAfter then SAct.deleteMsg else SAct.clearReactions]
    ++ [SAct.clearMsgRef]

structure StartOut (S E : Type) where
  state : S
  acts : List SAct
  result : LResult E

/-- The started portion of `Session.start` (the initial message has been sent
and listeners registered): `try: await self.__loop()` / `finally: await
self._cleanup()`.  When the loop never returns (`pending`) start never
returns, modelled as `none`; on every returning path — normal stop, the
default timeout handler's raise, or an exception from a job — the `finally`
block runs `_cleanup` exactly once and the loop's exception (if any)
propagates to the caller. -/
def start {S E : Type} (events : List (LEvent (LJob S E))) (s0 : S) (deleteAfter : Bool) :
    Option (StartOut S E) :=
  let out := runLoop events s0
  match out.result with
  | LResult.pending => none
  | r => some ⟨out.state, out.ran.map SAct.ranJob ++ cleanupActs deleteAfter, r⟩

/-! ## The message router `Session.on_message` (session.py lines 240-254) -/

/-- The session's permitted-user container: a set of ids, or the `EVERYONE`
object whose `__contains__` always answers true. -/
inductive AllowedUsers : Type
  | everyone
  | ids (l : List Nat)

def AllowedUsers.holds : AllowedUsers → Nat → Bool
  | AllowedUsers.everyone, _ => true
  | AllowedUsers.ids l, u => l.contains u

structure InMsg where
  channelId : Nat
  authorId : Nat
  content : String
  deriving DecidableEq

/-- A command pattern embedded by its `re.fullmatch` behaviour: `some groups`
iff the pattern matches the ENTIRE text (never a proper substring). -/
abbrev PatFn := String → Option (List String)

/-- A job enqueued by the router: bound callback, the triggering message, and
the match's captured groups as trailing arguments. -/
structure CmdJob where
  callback : Nat
  msg : InMsg
  args : List String

/-- The `for pattern, command in self.__ui_commands__.items()` loop: the first
pattern whose fullmatch succeeds enqueues one job and `break`s. -/
def scanCommands (cmds : List (PatFn × Nat)) (m : InMsg) : List CmdJob :=
  match cmds with
  | [] => []
  | (p, cb) :: rest =>
    match p m.content with
    | some gs => [⟨cb, m, gs⟩]
    | none => scanCommands rest m

/-- Python `Session.on_message`, returning the list of jobs it enqueues: nothing for
a foreign channel or a non-permitted author, else the result of the scan. -/
def on_message (chanId : Nat) (allowed : AllowedUsers) (cmds : List (PatFn × Nat))
    (m : InMsg) : List CmdJob :=
  if m.channelId ≠ chanId then []
  else if ¬ allowed.holds m.authorId then []
  else scanCommands cmds m

/-! ## Selector construction and text input (helpers.py lines 75-159) -/

/-- A `Choice`: value, optional button emoji, optional text pattern (the
label only affects formatting and is omitted). -/
structure SChoice (V : Type) where
  value : V
  button : Option String
  pattern : Option String

/-- Python `bool(choice.button)`: `None` and the empty string are falsy. -/
def SChoice.hasButton {V : Type} (c : SChoice V) : Bool :=
  match c.button with
  | none => false
  | some s => !s.isEmpty

inductive SelectorInitErr : Type
  | indexErr
  | valueErr
  deriving DecidableEq

/-- The validation loop of `Selector.__init__`: raise `ValueError` at the
first choice whose button-ness differs from the first choice's. -/
def checkButtonsFrom {V : Type} (must : Bool) : List (SChoice V) → Except SelectorInitErr Unit
  | [] => Except.ok ()
  | c :: rest =>
    if c.hasButton ≠ must then Except.error SelectorInitErr.valueErr
    else checkButtonsFrom must rest

/-- Python `Selector.__init__` validation: `bool(self.choices[0].button)` raises
`IndexError` on an empty list, then every further choice must agree. -/
def selectorInit {V : Type} (choices : List (SChoice V)) : Except SelectorInitErr Unit :=
  match choices with
  | [] => Except.error SelectorInitErr.indexErr
  | c0 :: rest => checkButtonsFrom c0.hasButton rest

/-- Outcome of one `_on_text_input` call: the value stored into
`self._result` (if any), whether `stop()` was called (the sentinel was
enqueued), and the report messages sent to the channel (an ambiguity report
carries the echoed input and the match count). -/
structure TextOutcome (V : Type) where
  result : Option V
  stopped : Bool
  sent : List (String × Nat)

/-- The match-collection loop of `Selector._on_text_input`: choices without a
(truthy) pattern are skipped, `re.match(choice.pattern, input)` is the oracle
`rm` applied to pattern and input, matching choices contribute their value in
declaration order. -/
def selMatches {V : Type} (rm : String → String → Bool) (choices : List (SChoice V))
    (input : String) : List V :=
  match choices with
  | [] => []
  | c :: rest =>
    match c.pattern with
    | none => selMatches rm rest input
    | some p =>
      if p.isEmpty then selMatches rm rest input
      else if rm p input then c.value :: selMatches rm rest input
      else selMatches rm rest input

/-- Python `Selector._on_text_input`: zero matches returns silently; more than one
match sends an ambiguity report without stopping and without setting the
result; exactly one match sets the result and stops the session. -/
def on_text_input {V : Type} (rm : String → String → Bool) (choices : List (SChoice V))
    (input : String) : TextOutcome V :=
  let ms := selMatches rm choices input
  match ms with
  | [] => ⟨none, false, []⟩
  | [v] => ⟨some v, true, []⟩
  | l => ⟨none, false, [(input, l.length)]⟩

/-- Whether one choice matches the text input (the predicate the collection
loop implements). -/
def choiceTextMatches {V : Type} (rm : String → String → Bool) (input : String)
    (c : SChoice V) : Bool :=
  match c.pattern with
  | none => false
  | some p => !p.isEmpty && rm p input

/-! ## `IterableSource.get_page` (paginator.py lines 39-55) -/

/-- The source's state: the not-yet-consumed tail of `iter(iterable)` and the
growing `_cache`. -/
structure IterSrc (α : Type) where
  it : List α
  cache : List α

/-- Python `IterableSource.get_page`: negative indices raise `InvalidPage` at once;
otherwise the cache is topped up with `islice(self._it, index+1-cache_len)`
items (which consumes at most that many from the iterator) and the page is
read from the cache, a miss raising `InvalidPage` — with the extended cache
retained in the state either way. -/
def IterSrc.get_page {α : Type} (src : IterSrc α) (index : Int) : IterSrc α × Except Unit α :=
  if index < 0 then (src, Except.error ())
  else
    let i := index.toNat
    let src1 :=
      if src.cache.length ≤ i then
        { it := src.it.drop (i + 1 - src.cache.length),
          cache := src.cache ++ src.it.take (i + 1 - src.cache.length) }
      else src
    match src1.cache[i]? with
    | some a => (src1, Except.ok a)
    | none => (src1, Except.error ())

/-- Run a sequence of `get_page` queries, threading the cached state. -/
def runQueries {α : Type} (src : IterSrc α) : List Int → List (Except Unit α)
  | [] => []
  | q :: qs =>
    let step := src.get_page q
    step.2 :: runQueries step.1 qs

/-! ## `Paginator.__init__` source classification (paginator.py lines 116-132) -/

/-- The duck-typing shape of the `source` argument. -/
structure PySource where
  hasAiter : Bool
  hasIter : Bool
  hasGetPage : Bool

inductive PagesAttr : Type
  | asyncSrc
  | iterSrc
  | customSrc
  deriving DecidableEq

/-- The `if/elif/elif` chain of `Paginator.__init__` that assigns
`self.pages`: async-iterables and iterables are wrapped, a source with none
of the three attributes raises `TypeError` — and a source that only has
`get_page` falls through every branch, leaving `self.pages` UNASSIGNED
(modelled as `Except.ok none`). -/
def paginator_init_pages (s : PySource) : Except Unit (Option PagesAttr) :=
  if s.hasAiter then Except.ok (some PagesAttr.asyncSrc)
  else if s.hasIter then Except.ok (some PagesAttr.iterSrc)
  else if !s.hasGetPage then Except.error ()
  else Except.ok none

/-- Python `Paginator.get_page` reads `self.pages`: when the attribute was never
assigned the read raises `AttributeError` (`Except.error`). -/
def paginator_get_page_src (pages : Option PagesAttr) : Except Unit PagesAttr :=
  match pages with
  | none => Except.error ()
  | some p => Except.ok p

/-- Modelled from the spec: "Wraps a page source (an eagerly-supplied finite
sequence, a lazily-consumed possibly-infinite sequence ..., or a
caller-supplied custom source)" — the intended classification stores a
caller-supplied custom source in `self.pages`; the missing piece in the code
is the final else branch performing that assignment. -/
def paginator_init_pages_spec (s : PySource) : Except Unit (Option PagesAttr) :=
  if s.hasAiter then Except.ok (some PagesAttr.asyncSrc)
  else if s.hasIter then Except.ok (some PagesAttr.iterSrc)
  else if !s.hasGetPage then Except.error ()
  else Except.ok (some PagesAttr.customSrc)

/-! # Theorems -/

/-! ## Helper lemmas -/

theorem pureJob_run {S E : Type} (p : Nat × (S → S)) (s : S) :
    (pureJob (S := S) (E := E) p).run s = Except.ok (p.2 s) := rfl

theorem pureJob_id {S E : Type} (p : Nat × (S → S)) :
    (pureJob (S := S) (E := E) p).id = p.1 := rfl

theorem Dict.get?_map_over {K V : Type} [DecidableEq K] (d : Dict K V) (k : K) (v : V)
    (q : K) :
    Dict.get? (d.map (fun p => if p.1 = k then (k, v) else p)) q
      = if q = k then (if d.hasKey k then some v else none) else d.get? q := by
  induction d with
  | nil => simp [Dict.get?, Dict.hasKey]
  | cons p rest ih =>
    by_cases hp : p.1 = k
    · by_cases hq : q = k
      · simp [Dict.get?, Dict.hasKey, hp, hq]
      · have hkq : ¬ k = q := fun h => hq h.symm
        simp [Dict.get?, Dict.hasKey, hp, hq, hkq, ih]
    · by_cases hpq : p.1 = q
      · have hqk : ¬ q = k := fun h => hp (hpq.trans h)
        simp [Dict.get?, hp, hpq, hqk]
      · simp [Dict.get?, Dict.hasKey, hp, hpq, ih]

theorem Dict.get?_append {K V : Type} [DecidableEq K] (d1 d2 : Dict K V) (q : K) :
    Dict.get? (d1 ++ d2) q = (d1.get? q).or (d2.get? q) := by
  induction d1 with
  | nil => simp [Dict.get?]
  | cons p rest ih =>
    by_cases hp : p.1 = q <;> simp [Dict.get?, hp, ih]

theorem Dict.get?_eq_none_of_not_hasKey {K V : Type} [DecidableEq K] (d : Dict K V)
    (k : K) (h : d.hasKey k = false) : d.get? k = none := by
  induction d with
  | nil => rfl
  | cons p rest ih =>
    simp only [Dict.hasKey, Bool.or_eq_false_iff, decide_eq_false_iff_not] at h
    simp [Dict.get?, h.1, ih h.2]

theorem Dict.get?_insert {K V : Type} [DecidableEq K] (d : Dict K V) (k : K) (v : V)
    (q : K) :
    (d.insert k v).get? q = if q = k then some v else d.get? q := by
  unfold Dict.insert
  by_cases hk : d.hasKey k
  · simp [hk, Dict.get?_map_over]
  · rw [if_neg (by simp [hk]), Dict.get?_append]
    by_cases hq : q = k
    · subst hq
      rw [Dict.get?_eq_none_of_not_hasKey d q (by simpa using hk)]
      simp [Dict.get?]
    · have hkq : ¬ k = q := fun h => hq h.symm
      simp [Dict.get?, hq, hkq, Option.or_none]

theorem Dict.get?_pop {K V : Type} [DecidableEq K] (d : Dict K V) (k : K) (q : K) :
    (d.pop k).get? q = if q = k then none else d.get? q := by
  induction d with
  | nil => simp [Dict.pop, Dict.get?]
  | cons p rest ih =>
    by_cases hp : p.1 = k
    · by_cases hq : q = k
      · subst hq
        simp [Dict.pop, hp, ih]
      · have hpq : ¬ p.1 = q := by rw [hp]; exact fun h => hq h.symm
        have hkq : ¬ k = q := hp ▸ hpq
        simp [Dict.pop, Dict.get?, hp, hq, hpq, hkq, ih]
    · by_cases hpq : p.1 = q
      · have hqk : ¬ q = k := fun h => hp (hpq.trans h)
        simp [Dict.pop, Dict.get?, hp, hpq, hqk]
      · simp [Dict.pop, Dict.get?, hp, hpq, ih]

theorem Dict.get?_eq_none_iff {K V : Type} [DecidableEq K] (d : Dict K V) (q : K) :
    d.get? q = none ↔ ∀ p ∈ d, p.1 ≠ q := by
  induction d with
  | nil => simp [Dict.get?]
  | cons p rest ih =>
    by_cases hp : p.1 = q <;> simp [Dict.get?, hp, ih]

theorem Dict.get?_reverse {K V : Type} [DecidableEq K] (d : Dict K V)
    (h : (d.map Prod.fst).Nodup) (q : K) :
    Dict.get? d.reverse q = d.get? q := by
  induction d with
  | nil => rfl
  | cons p rest ih =>
    simp only [List.map_cons, List.nodup_cons] at h
    rw [List.reverse_cons, Dict.get?_append, ih h.2]
    by_cases hp : p.1 = q
    · have hrest : Dict.get? rest q = none := by
        rw [Dict.get?_eq_none_iff]
        intro x hx hxq
        exact h.1 (List.mem_map.mpr ⟨x, hx, hxq.trans hp.symm⟩)
      simp [Dict.get?, hp, hrest]
    · simp [Dict.get?, hp]

theorem get?_foldl_insert_pairs {K V : Type} [DecidableEq K] (ps : List (K × V))
    (acc : Dict K V) (q : K) :
    Dict.get? (ps.foldl (fun m p => m.insert p.1 p.2) acc) q
      = (Dict.get? ps.reverse q).or (acc.get? q) := by
  induction ps generalizing acc with
  | nil => simp [Dict.get?]
  | cons p rest ih =>
    rw [List.foldl_cons, ih, List.reverse_cons, Dict.get?_append, Dict.get?_insert]
    have h2 : (if q = p.1 then some p.2 else acc.get? q)
        = (Dict.get? [p] q).or (acc.get? q) := by
      by_cases hpq : p.1 = q
      · subst hpq
        simp [Dict.get?]
      · have hqp : ¬ q = p.1 := fun h => hpq h.symm
        simp [Dict.get?, hpq, hqp]
    rw [h2, Option.or_assoc]

theorem get?_updateFrom {K V : Type} [DecidableEq K] (acc : Dict K V)
    (t : Option (Dict K V)) (q : K) (hwf : optWF t = true) :
    (updateFrom acc t).get? q = (ancGet t q).or (acc.get? q) := by
  cases t with
  | none => simp [updateFrom, ancGet]
  | some d =>
    simp only [optWF, dictWF, decide_eq_true_eq] at hwf
    by_cases he : d.isEmpty
    · have hd : d = [] := by
        cases d
        · rfl
        · simp [List.isEmpty] at he
      subst hd
      simp [updateFrom, ancGet, Dict.get?]
    · simp only [updateFrom, if_neg he, ancGet]
      rw [get?_foldl_insert_pairs, Dict.get?_reverse d hwf]

theorem option_map_or {α β : Type} (o o' : Option α) (f : α → β) :
    (o.or o').map f = (o.map f).or (o'.map f) := by
  cases o <;> rfl

theorem lastAncBtn_cons (a : AncAttrs) (rest : List AncAttrs) (k : EKey) :
    lastAncBtn (a :: rest) k = (lastAncBtn rest k).or (ancGet a.buttons k) := by
  unfold lastAncBtn
  rw [List.reverse_cons, List.findSome?_append]
  congr 1
  cases h : ancGet a.buttons k <;> simp [List.findSome?_cons, h]

theorem lastAncUnbtn_cons (a : AncAttrs) (rest : List AncAttrs) (k : EKey) :
    lastAncUnbtn (a :: rest) k = (lastAncUnbtn rest k).or (ancGet a.unbuttons k) := by
  unfold lastAncUnbtn
  rw [List.reverse_cons, List.findSome?_append]
  congr 1
  cases h : ancGet a.unbuttons k <;> simp [List.findSome?_cons, h]

theorem lastAncCmd_cons (a : AncAttrs) (rest : List AncAttrs) (k : String) :
    lastAncCmd (a :: rest) k = (lastAncCmd rest k).or (ancGet a.commands k) := by
  unfold lastAncCmd
  rw [List.reverse_cons, List.findSome?_append]
  congr 1
  cases h : ancGet a.commands k <;> simp [List.findSome?_cons, h]

theorem basesFold_get? (bases : List AncAttrs) (acc : Tables3)
    (hwf : ∀ a ∈ bases, ancWF a = true) (k : EKey) (kc : String) :
    ((bases.foldl mergeAnc acc).buttons.get? k
        = (lastAncBtn bases k).or (acc.buttons.get? k)) ∧
    ((bases.foldl mergeAnc acc).unbuttons.get? k
        = (lastAncUnbtn bases k).or (acc.unbuttons.get? k)) ∧
    ((bases.foldl mergeAnc acc).commands.get? kc
        = (lastAncCmd bases kc).or (acc.commands.get? kc)) := by
  induction bases generalizing acc with
  | nil => simp [lastAncBtn, lastAncUnbtn, lastAncCmd, List.findSome?]
  | cons a rest ih =>
    have hwa : ancWF a = true := hwf a (by simp)
    have hwr : ∀ x ∈ rest, ancWF x = true := fun x hx => hwf x (by simp [hx])
    obtain ⟨h1, h2, h3⟩ := ih (mergeAnc acc a) hwr
    simp only [ancWF, Bool.and_eq_true] at hwa
    refine ⟨?_, ?_, ?_⟩
    · rw [List.foldl_cons, h1, lastAncBtn_cons, Option.or_assoc]
      congr 1
      exact get?_updateFrom acc.buttons a.buttons k hwa.1.1
    · rw [List.foldl_cons, h2, lastAncUnbtn_cons, Option.or_assoc]
      congr 1
      exact get?_updateFrom acc.unbuttons a.unbuttons k hwa.2
    · rw [List.foldl_cons, h3, lastAncCmd_cons, Option.or_assoc]
      congr 1
      exact get?_updateFrom acc.commands a.commands kc hwa.1.2

theorem insertDecl_buttons (acc : Tables3) (d : MemberDecl) :
    (insertDecl acc d).buttons =
      (match declBtnKey? true d with
       | some k => acc.buttons.insert k d.id
       | none => acc.buttons) := by
  unfold insertDecl
  cases declBtnKey? true d <;> cases declBtnKey? false d <;> cases declCmdKey? d <;> rfl

theorem insertDecl_unbuttons (acc : Tables3) (d : MemberDecl) :
    (insertDecl acc d).unbuttons =
      (match declBtnKey? false d with
       | some k => acc.unbuttons.insert k d.id
       | none => acc.unbuttons) := by
  unfold insertDecl
  cases declBtnKey? true d <;> cases declBtnKey? false d <;> cases declCmdKey? d <;> rfl

theorem insertDecl_commands (acc : Tables3) (d : MemberDecl) :
    (insertDecl acc d).commands =
      (match declCmdKey? d with
       | some k => acc.commands.insert k d.id
       | none => acc.commands) := by
  unfold insertDecl
  cases declBtnKey? true d <;> cases declBtnKey? false d <;> cases declCmdKey? d <;> rfl

theorem lastDeclBtn_cons (d : MemberDecl) (rest : List MemberDecl) (press : Bool)
    (k : EKey) :
    lastDeclBtn (d :: rest) press k =
      (lastDeclBtn rest press k).or
        (if declBtnKey? press d = some k then some d.id else none) := by
  unfold lastDeclBtn
  rw [List.reverse_cons, List.find?_append, option_map_or]
  congr 1
  by_cases h : declBtnKey? press d = some k
  · simp [List.find?, h]
  · simp [List.find?, h]

theorem lastDeclCmd_cons (d : MemberDecl) (rest : List MemberDecl) (k : String) :
    lastDeclCmd (d :: rest) k =
      (lastDeclCmd rest k).or
        (if declCmdKey? d = some k then some d.id else none) := by
  unfold lastDeclCmd
  rw [List.reverse_cons, List.find?_append, option_map_or]
  congr 1
  by_cases h : declCmdKey? d = some k
  · simp [List.find?, h]
  · simp [List.find?, h]

theorem declsFold_buttons (decls : List MemberDecl) (t : Tables3) (k : EKey) :
    (decls.foldl insertDecl t).buttons.get? k
      = (lastDeclBtn decls true k).or (t.buttons.get? k) := by
  induction decls generalizing t with
  | nil => simp [lastDeclBtn]
  | cons d rest ih =>
    rw [List.foldl_cons, ih, lastDeclBtn_cons, Option.or_assoc]
    congr 1
    rw [insertDecl_buttons]
    cases hk : declBtnKey? true d with
    | none => simp [hk]
    | some k1 =>
      rw [Dict.get?_insert]
      by_cases hkk : k = k1
      · subst hkk
        simp
      · have hk1k : ¬ k1 = k := fun h => hkk h.symm
        have hne : ¬ declBtnKey? true d = some k := by
          rw [hk]
          simp [hk1k]
        simp [hk, hkk, hk1k, hne]

theorem declsFold_unbuttons (decls : List MemberDecl) (t : Tables3) (k : EKey) :
    (decls.foldl insertDecl t).unbuttons.get? k
      = (lastDeclBtn decls false k).or (t.unbuttons.get? k) := by
  induction decls generalizing t with
  | nil => simp [lastDeclBtn]
  | cons d rest ih =>
    rw [List.foldl_cons, ih, lastDeclBtn_cons, Option.or_assoc]
    congr 1
    rw [insertDecl_unbuttons]
    cases hk : declBtnKey? false d with
    | none => simp [hk]
    | some k1 =>
      rw [Dict.get?_insert]
      by_cases hkk : k = k1
      · subst hkk
        simp
      · have hk1k : ¬ k1 = k := fun h => hkk h.symm
        have hne : ¬ declBtnKey? false d = some k := by
          rw [hk]
          simp [hk1k]
        simp [hk, hkk, hk1k, hne]

theorem declsFold_commands (decls : List MemberDecl) (t : Tables3) (k : String) :
    (decls.foldl insertDecl t).commands.get? k
      = (lastDeclCmd decls k).or (t.commands.get? k) := by
  induction decls generalizing t with
  | nil => simp [lastDeclCmd]
  | cons d rest ih =>
    rw [List.foldl_cons, ih, lastDeclCmd_cons, Option.or_assoc]
    congr 1
    rw [insertDecl_commands]
    cases hk : declCmdKey? d with
    | none => simp [hk]
    | some k1 =>
      rw [Dict.get?_insert]
      by_cases hkk : k = k1
      · subst hkk
        simp
      · have hk1k : ¬ k1 = k := fun h => hkk h.symm
        have hne : ¬ declCmdKey? d = some k := by
          rw [hk]
          simp [hk1k]
        simp [hk, hkk, hk1k, hne]

theorem cowMutate_snd {K V : Type} (store : Store (Dict K V)) (i c : Nat)
    (f : Dict K V → Dict K V) :
    (cowMutate store i c f).2 = if i = c then store.length else i := by
  by_cases h : i = c <;> simp [cowMutate, cowCheck, h]

theorem cowMutate_len {K V : Type} (store : Store (Dict K V)) (i c : Nat)
    (f : Dict K V → Dict K V) :
    (cowMutate store i c f).1.length
      = if i = c then store.length + 1 else store.length := by
  by_cases h : i = c <;> simp [cowMutate, cowCheck, mutateT, h]

theorem cowMutate_len_le {K V : Type} (store : Store (Dict K V)) (i c : Nat)
    (f : Dict K V → Dict K V) :
    store.length ≤ (cowMutate store i c f).1.length := by
  rw [cowMutate_len]
  by_cases h : i = c <;> simp [h]

theorem cowMutate_frame {K V : Type} (store : Store (Dict K V)) (i c : Nat)
    (f : Dict K V → Dict K V) (r : Nat)
    (hr : r < store.length) (hri : i = c ∨ r ≠ i) :
    (cowMutate store i c f).1[r]? = store[r]? := by
  by_cases h : i = c
  · have hne : store.length ≠ r := by omega
    simp only [cowMutate, cowCheck, if_pos h, mutateT]
    rw [List.getElem?_set_ne hne, List.getElem?_append_left hr]
  · have hri2 : r ≠ i := hri.resolve_left h
    simp only [cowMutate, cowCheck, if_neg h, mutateT]
    rw [List.getElem?_set_ne (Ne.symm hri2)]

theorem cowMutate_read_self {K V : Type} (store : Store (Dict K V)) (i c : Nat)
    (f : Dict K V → Dict K V) (hlive : i = c ∨ i < store.length) :
    readT (cowMutate store i c f).1 (cowMutate store i c f).2 = f (readT store i) := by
  by_cases h : i = c
  · have h1 : readT (store ++ [readT store c]) store.length = readT store c := by
      simp [readT, List.getElem?_concat_length]
    have hlen : store.length < (store ++ [readT store c]).length := by simp
    simp only [cowMutate, cowCheck, if_pos h, mutateT, h1]
    rw [readT, List.getElem?_set_self hlen]
    rw [h]
    rfl
  · have hi : i < store.length := hlive.resolve_left h
    simp only [cowMutate, cowCheck, if_neg h, mutateT]
    rw [readT, List.getElem?_set_self (by simpa using hi)]
    rfl

theorem cowMutate_prot {K V : Type} (store : Store (Dict K V)) (i c : Nat)
    (f : Dict K V → Dict K V) (prot : List Nat)
    (hp : ∀ r ∈ prot, r < store.length) (hi : i = c ∨ i ∉ prot) :
    (∀ r ∈ prot, (cowMutate store i c f).1[r]? = store[r]?) ∧
    (cowMutate store i c f).2 ∉ prot ∧
    (∀ r ∈ prot, r < (cowMutate store i c f).1.length) := by
  refine ⟨?_, ?_, ?_⟩
  · intro r hr
    apply cowMutate_frame store i c f r (hp r hr)
    rcases hi with h | h
    · exact Or.inl h
    · exact Or.inr (fun he => h (he ▸ hr))
  · rw [cowMutate_snd]
    by_cases h : i = c
    · simp only [if_pos h]
      intro hmem
      have h4 := hp _ hmem
      omega
    · simp only [if_neg h]
      exact hi.resolve_left h
  · intro r hr
    have h2 := hp r hr
    have h3 := cowMutate_len_le store i c f
    omega

theorem add_button_inv_frame (cls : ClsRefs) (protB protC : List Nat) (st : UIState)
    (cb : Nat) (e : EKey) (u : Bool) (hinv : Inv cls protB protC st) :
    Inv cls protB protC (add_button cls st cb e u) ∧
    (∀ r ∈ protB, (add_button cls st cb e u).bstore[r]? = st.bstore[r]?) ∧
    (∀ r ∈ protC, (add_button cls st cb e u).cstore[r]? = st.cstore[r]?) := by
  obtain ⟨hBm, hUm, hCm, hBlt, hClt, hb, hu, hc⟩ := hinv
  cases u
  · obtain ⟨hf, hnp, hlt⟩ := cowMutate_prot st.bstore st.bref cls.buttons
      (fun d => d.insert (_parse_emoji e) cb) protB hBlt hb
    exact ⟨⟨hBm, hUm, hCm, hlt, hClt, Or.inr hnp, hu, hc⟩, hf, fun r hr => rfl⟩
  · obtain ⟨hf, hnp, hlt⟩ := cowMutate_prot st.bstore st.uref cls.unbuttons
      (fun d => d.insert (_parse_emoji e) cb) protB hBlt hu
    exact ⟨⟨hBm, hUm, hCm, hlt, hClt, hb, Or.inr hnp, hc⟩, hf, fun r hr => rfl⟩

theorem remove_button_inv_frame (cls : ClsRefs) (protB protC : List Nat) (st : UIState)
    (e : EKey) (hinv : Inv cls protB protC st) :
    Inv cls protB protC (remove_button cls st e) ∧
    (∀ r ∈ protB, (remove_button cls st e).bstore[r]? = st.bstore[r]?) ∧
    (∀ r ∈ protC, (remove_button cls st e).cstore[r]? = st.cstore[r]?) := by
  obtain ⟨hBm, hUm, hCm, hBlt, hClt, hb, hu, hc⟩ := hinv
  obtain ⟨hf1, hnp1, hlt1⟩ := cowMutate_prot st.bstore st.bref cls.buttons
    (fun d => d.pop (_parse_emoji e)) protB hBlt hb
  obtain ⟨hf2, hnp2, hlt2⟩ := cowMutate_prot
    (cowMutate st.bstore st.bref cls.buttons (fun d => d.pop (_parse_emoji e))).1
    st.uref cls.unbuttons (fun d => d.pop (_parse_emoji e)) protB hlt1 hu
  exact ⟨⟨hBm, hUm, hCm, hlt2, hClt, Or.inr hnp1, Or.inr hnp2, hc⟩,
    fun r hr => (hf2 r hr).trans (hf1 r hr), fun r hr => rfl⟩

theorem add_command_inv_frame (cls : ClsRefs) (protB protC : List Nat) (st : UIState)
    (cb : Nat) (pat : String) (hinv : Inv cls protB protC st) :
    Inv cls protB protC (add_command cls st cb pat) ∧
    (∀ r ∈ protB, (add_command cls st cb pat).bstore[r]? = st.bstore[r]?) ∧
    (∀ r ∈ protC, (add_command cls st cb pat).cstore[r]? = st.cstore[r]?) := by
  obtain ⟨hBm, hUm, hCm, hBlt, hClt, hb, hu, hc⟩ := hinv
  obtain ⟨hf, hnp, hlt⟩ := cowMutate_prot st.cstore st.cref cls.commands
    (fun d => d.insert pat cb) protC hClt hc
  exact ⟨⟨hBm, hUm, hCm, hBlt, hlt, hb, hu, Or.inr hnp⟩, fun r hr => rfl, hf⟩

theorem remove_command_inv_frame (cls : ClsRefs) (protB protC : List Nat) (st : UIState)
    (pat : String) (hinv : Inv cls protB protC st) :
    Inv cls protB protC (remove_command cls st pat) ∧
    (∀ r ∈ protB, (remove_command cls st pat).bstore[r]? = st.bstore[r]?) ∧
    (∀ r ∈ protC, (remove_command cls st pat).cstore[r]? = st.cstore[r]?) := by
  obtain ⟨hBm, hUm, hCm, hBlt, hClt, hb, hu, hc⟩ := hinv
  obtain ⟨hf, hnp, hlt⟩ := cowMutate_prot st.cstore st.cref cls.commands
    (fun d => d.pop pat) protC hClt hc
  exact ⟨⟨hBm, hUm, hCm, hBlt, hlt, hb, hu, Or.inr hnp⟩, fun r hr => rfl, hf⟩

theorem applyOp_inv_frame (cls : ClsRefs) (protB protC : List Nat) (st : UIState)
    (op : UIOp) (hinv : Inv cls protB protC st) :
    Inv cls protB protC (applyOp cls st op) ∧
    (∀ r ∈ protB, (applyOp cls st op).bstore[r]? = st.bstore[r]?) ∧
    (∀ r ∈ protC, (applyOp cls st op).cstore[r]? = st.cstore[r]?) := by
  cases op with
  | addButton cb e u => exact add_button_inv_frame cls protB protC st cb e u hinv
  | removeButton e => exact remove_button_inv_frame cls protB protC st e hinv
  | addCommand cb p => exact add_command_inv_frame cls protB protC st cb p hinv
  | removeCommand p => exact remove_command_inv_frame cls protB protC st p hinv

theorem checkButtonsFrom_eq {V : Type} (must : Bool) (l : List (SChoice V)) :
    checkButtonsFrom must l =
      (if l.all (fun c => c.hasButton == must) then Except.ok ()
       else Except.error SelectorInitErr.valueErr) := by
  induction l with
  | nil => simp [checkButtonsFrom]
  | cons c rest ih =>
    by_cases h : c.hasButton = must
    · simp [checkButtonsFrom, h, ih]
    · simp [checkButtonsFrom, h]

theorem selMatches_eq_filter {V : Type} (rm : String → String → Bool)
    (choices : List (SChoice V)) (input : String) :
    selMatches rm choices input =
      (choices.filter (choiceTextMatches rm input)).map SChoice.value := by
  induction choices with
  | nil => simp [selMatches]
  | cons c rest ih =>
    cases hp : c.pattern with
    | none => simp [selMatches, hp, List.filter_cons, choiceTextMatches, ih]
    | some p =>
      by_cases he : p.isEmpty
      · simp [selMatches, hp, he, List.filter_cons, choiceTextMatches, ih]
      · by_cases hm : rm p input
        · simp [selMatches, hp, he, hm, List.filter_cons, choiceTextMatches, ih]
        · simp [selMatches, hp, he, hm, List.filter_cons, choiceTextMatches, ih]

theorem scanCommands_eq_findSome (cmds : List (PatFn × Nat)) (m : InMsg) :
    scanCommands cmds m =
      (match cmds.findSome? (fun pc => (pc.1 m.content).map (fun gs => CmdJob.mk pc.2 m gs)) with
       | some j => [j]
       | none => []) := by
  induction cmds with
  | nil => simp [scanCommands]
  | cons pc rest ih =>
    cases hm : pc.1 m.content with
    | some gs => simp [scanCommands, List.findSome?_cons, hm]
    | none => simp [scanCommands, List.findSome?_cons, hm, ih]

/-! ## Claim theorems -/

/-- C1: for every finite sequence of jobs `js` enqueued into the session's
queue followed by the stop sentinel (and anything — further jobs included —
after the sentinel), the loop executes exactly the jobs of `js` in FIFO
order, each awaited to completion before the next is dequeued (the final
state is the left fold of the job effects in queue order), and terminates on
the sentinel without running anything enqueued after it. -/
theorem loop_runs_jobs_fifo_then_stops {S E : Type} (js : List (Nat × (S → S)))
    (tail : List (LEvent (LJob S E))) (s0 : S) :
    runLoop (js.map (fun p => LEvent.item (some (pureJob p))) ++ LEvent.item none :: tail) s0
      = ⟨js.foldl (fun s p => p.2 s) s0, js.map Prod.fst, LResult.finished⟩ := by
  induction js generalizing s0 with
  | nil => simp [runLoop]
  | cons p rest ih =>
    simp only [List.map_cons, List.cons_append, runLoop, pureJob_run, pureJob_id,
      List.append_eq]
    rw [ih]
    simp

/-- C2: on every returning exit path of the started session — normal
termination via the stop sentinel, the default timeout handler's raise, or an
exception from inside a job — `start`'s trace is the loop's job executions
followed by the cleanup routine (unregister the four listeners, then delete
the message or clear its reactions, then clear the stored message
reference), and that cleanup appears exactly once. -/
theorem start_runs_cleanup_exactly_once {S E : Type} (events : List (LEvent (LJob S E)))
    (s0 : S) (da : Bool) (o : StartOut S E) (h : start events s0 da = some o) :
    (o.result = LResult.finished ∨ o.result = LResult.timedOut ∨
      ∃ e, o.result = LResult.failed e) ∧
    o.acts = (runLoop events s0).ran.map SAct.ranJob ++ cleanupActs da ∧
    o.acts.count SAct.clearMsgRef = 1 := by
  have hran : SAct.clearMsgRef ∉ (runLoop events s0).ran.map SAct.ranJob := by
    simp [List.mem_map]
  have hcount : ((runLoop events s0).ran.map SAct.ranJob ++ cleanupActs da).count
      SAct.clearMsgRef = 1 := by
    rw [List.count_append]
    rw [List.count_eq_zero.mpr hran]
    cases da <;> simp [cleanupActs, List.count_cons, List.count_append]
  cases hres : (runLoop events s0).result with
  | pending => simp [start, hres] at h
  | finished =>
    simp [start, hres] at h
    refine ⟨Or.inl ?_, ?_, ?_⟩
    · rw [← h]
    · rw [← h]
    · rw [← h]; exact hcount
  | timedOut =>
    simp [start, hres] at h
    refine ⟨Or.inr (Or.inl ?_), ?_, ?_⟩
    · rw [← h]
    · rw [← h]
    · rw [← h]; exact hcount
  | failed e =>
    simp [start, hres] at h
    refine ⟨Or.inr (Or.inr ⟨e, ?_⟩), ?_, ?_⟩
    · rw [← h]
    · rw [← h]
    · rw [← h]; exact hcount

/-- Witness for C2: a concrete started session whose queue holds just the
stop sentinel cleans up exactly once. -/
theorem start_runs_cleanup_exactly_once_witness :
    (StartOut.mk (0 : Nat) ((List.map SAct.ranJob []) ++ cleanupActs false)
        (LResult.finished (E := Nat))).acts.count SAct.clearMsgRef = 1 :=
  (start_runs_cleanup_exactly_once [LEvent.item none] 0 false _ rfl).2.2

/-- C5: `on_message` enqueues at most one job; when the message passes the
channel and permitted-user filters, the job (if any) belongs to the FIRST
pattern in table order whose full-string match of the message text succeeds,
with the captured groups as trailing arguments; and nothing is enqueued when
the filters fail or no pattern fully matches. -/
theorem on_message_first_match_wins (chanId : Nat) (allowed : AllowedUsers)
    (cmds : List (PatFn × Nat)) (m : InMsg) :
    on_message chanId allowed cmds m =
      (if m.channelId = chanId ∧ allowed.holds m.authorId then
        match cmds.findSome? (fun pc => (pc.1 m.content).map (fun gs => CmdJob.mk pc.2 m gs)) with
        | some j => [j]
        | none => []
       else []) ∧
    (on_message chanId allowed cmds m).length ≤ 1 := by
  have hmain : on_message chanId allowed cmds m =
      (if m.channelId = chanId ∧ allowed.holds m.authorId then
        match cmds.findSome? (fun pc => (pc.1 m.content).map (fun gs => CmdJob.mk pc.2 m gs)) with
        | some j => [j]
        | none => []
       else []) := by
    by_cases hc : m.channelId = chanId
    · by_cases ha : allowed.holds m.authorId
      · simp [on_message, hc, ha, scanCommands_eq_findSome]
      · simp [on_message, hc, ha]
    · simp [on_message, hc]
  refine ⟨hmain, ?_⟩
  rw [hmain]
  by_cases hca : m.channelId = chanId ∧ allowed.holds m.authorId
  · simp only [if_pos hca]
    cases cmds.findSome? (fun pc => (pc.1 m.content).map (fun gs => CmdJob.mk pc.2 m gs)) <;> simp
  · simp [if_neg hca]

/-- C6 counterexample: for the empty choices list every choice vacuously "has
a button" (and vacuously none does), yet construction does not succeed — it
raises `IndexError` from `bool(self.choices[0].button)`. -/
theorem selectorInit_empty_raises :
    (([] : List (SChoice Nat)).all SChoice.hasButton = true) ∧
    (([] : List (SChoice Nat)).all (fun c => !c.hasButton) = true) ∧
    selectorInit ([] : List (SChoice Nat)) = Except.error SelectorInitErr.indexErr :=
  ⟨rfl, rfl, rfl⟩

/-- C6 (amended): for every NONEMPTY choices list, construction succeeds iff
all choices have a button or none does, and otherwise (mixed buttons) raises
the `ValueError` configuration error — synchronously, before any I/O (the
whole check is a pure function of the choices). -/
theorem selectorInit_all_or_none {V : Type} (choices : List (SChoice V))
    (h : choices ≠ []) :
    selectorInit choices =
      (if choices.all SChoice.hasButton ∨ choices.all (fun c => !c.hasButton) then
        Except.ok ()
       else Except.error SelectorInitErr.valueErr) := by
  cases choices with
  | nil => exact absurd rfl h
  | cons c0 rest =>
    rw [selectorInit, checkButtonsFrom_eq]
    cases hb : c0.hasButton with
    | true =>
      by_cases hall : rest.all (fun c => c.hasButton == true)
      · have : (c0 :: rest).all SChoice.hasButton := by
          simp_all [List.all_cons]
        simp_all [List.all_cons]
      · have h1 : ¬ (c0 :: rest).all SChoice.hasButton := by
          simp_all [List.all_cons]
        have h2 : ¬ (c0 :: rest).all (fun c => !c.hasButton) := by
          simp [List.all_cons, hb]
        simp_all
    | false =>
      by_cases hall : rest.all (fun c => c.hasButton == false)
      · have : (c0 :: rest).all (fun c => !c.hasButton) := by
          simp_all [List.all_cons]
        simp_all [List.all_cons]
      · have h1 : ¬ (c0 :: rest).all SChoice.hasButton := by
          simp [List.all_cons, hb]
        have h2 : ¬ (c0 :: rest).all (fun c => !c.hasButton) := by
          simp_all [List.all_cons]
        simp_all

/-- Witness for C6 (amended): two all-button choices construct successfully. -/
theorem selectorInit_all_or_none_witness :
    selectorInit [(SChoice.mk (0 : Nat) (some "A") none), SChoice.mk 1 (some "B") none]
      = Except.ok () := by
  have h := selectorInit_all_or_none
    [(SChoice.mk (0 : Nat) (some "A") none), SChoice.mk 1 (some "B") none] (by simp)
  simpa [SChoice.hasButton] using h

/-- C7: `_on_text_input` behaves by the number of choices whose pattern
matches the input: zero matching choices — silently ignored (no message, no
stop, no result); exactly one — its value becomes the result and the session
stops; more than one — an ambiguity report is sent, the session does not stop
and the result is not set. -/
theorem on_text_input_cases {V : Type} (rm : String → String → Bool)
    (choices : List (SChoice V)) (input : String) :
    on_text_input rm choices input =
      (match (choices.filter (choiceTextMatches rm input)).map SChoice.value with
       | [] => ⟨none, false, []⟩
       | [v] => ⟨some v, true, []⟩
       | l => ⟨none, false, [(input, l.length)]⟩) := by
  rw [on_text_input, selMatches_eq_filter]

/-- A cache that is a prefix of the backing list answers `[i]?` like the
backing list whenever the index is inside the cache, or whenever the cache
already holds the whole backing list. -/
theorem cacheSegment_getElem_eq {α : Type} (cache it : List α) (backing : List α)
    (hinv : cache ++ it = backing) (i : Nat)
    (h : i < cache.length ∨ backing.length ≤ cache.length) :
    cache[i]? = backing[i]? := by
  rcases Nat.lt_or_ge i cache.length with hlt | hge
  · rw [← hinv]
    exact (List.getElem?_append_left hlt).symm
  · have hlen : backing.length = cache.length + it.length := by
      rw [← hinv, List.length_append]
    have hb : backing.length ≤ i := by omega
    rw [List.getElem?_eq_none hge, List.getElem?_eq_none hb]

/-- One `get_page` step preserves the cache-plus-iterator invariant and
answers per the backing list. -/
theorem get_page_step {α : Type} (backing : List α) (src : IterSrc α)
    (hinv : src.cache ++ src.it = backing) (q : Int) :
    (src.get_page q).1.cache ++ (src.get_page q).1.it = backing ∧
      (src.get_page q).2 =
        (if q < 0 then Except.error ()
         else
           match backing[q.toNat]? with
           | some a => Except.ok a
           | none => Except.error ()) := by
  by_cases hneg : q < 0
  · simp [IterSrc.get_page, hneg, hinv]
  · have hlenb : backing.length = src.cache.length + src.it.length := by
      rw [← hinv, List.length_append]
    by_cases hext : src.cache.length ≤ q.toNat
    · have hinv1 :
          (src.cache ++ src.it.take (q.toNat + 1 - src.cache.length)) ++
              src.it.drop (q.toNat + 1 - src.cache.length) = backing := by
        rw [List.append_assoc, List.take_append_drop]
        exact hinv
      have hcl : (src.cache ++ src.it.take (q.toNat + 1 - src.cache.length)).length
          = src.cache.length + min (q.toNat + 1 - src.cache.length) src.it.length := by
        rw [List.length_append, List.length_take]
      have hget : (src.cache ++ src.it.take (q.toNat + 1 - src.cache.length))[q.toNat]?
          = backing[q.toNat]? := by
        apply cacheSegment_getElem_eq _ _ backing hinv1
        omega
      simp only [IterSrc.get_page, if_neg hneg, if_pos hext, ← hget]
      cases hm : (src.cache ++ src.it.take (q.toNat + 1 - src.cache.length))[q.toNat]? <;>
        exact ⟨hinv1, rfl⟩
    · have hget : src.cache[q.toNat]? = backing[q.toNat]? := by
        apply cacheSegment_getElem_eq _ _ backing hinv
        omega
      simp only [IterSrc.get_page, if_neg hneg, if_neg hext, ← hget]
      cases hm : src.cache[q.toNat]? <;> exact ⟨hinv, rfl⟩

/-- C3: for every session instance and every sequence of
`add_button`/`remove_button`/`add_command`/`remove_command` calls on it, the
heap entries at every protected location — the class-level trigger tables and
every table observed by another instance of the same class — are unchanged;
moreover the copy-on-write discipline is preserved: each instance reference is
either still the shared class table object (no mutation of that kind yet) or
an unprotected freshly cloned object (the first mutation of a kind clones the
table before writing and writes only through the clone from then on). -/
theorem cow_isolates_instance_mutations (cls : ClsRefs) (protB protC : List Nat)
    (st : UIState) (ops : List UIOp) (hinv : Inv cls protB protC st) :
    (∀ r ∈ protB, (applyOps cls st ops).bstore[r]? = st.bstore[r]?) ∧
    (∀ r ∈ protC, (applyOps cls st ops).cstore[r]? = st.cstore[r]?) ∧
    Inv cls protB protC (applyOps cls st ops) := by
  induction ops generalizing st with
  | nil => exact ⟨fun r hr => rfl, fun r hr => rfl, hinv⟩
  | cons op rest ih =>
    obtain ⟨hinv1, hfB, hfC⟩ := applyOp_inv_frame cls protB protC st op hinv
    obtain ⟨hB, hC, hinv2⟩ := ih (applyOp cls st op) hinv1
    exact ⟨fun r hr => (hB r hr).trans (hfB r hr),
      fun r hr => (hC r hr).trans (hfC r hr), hinv2⟩

/-- Witness for C3: a fresh instance (all three refs shared with the class)
adds a button; the class button table at heap location 0 is unchanged. -/
theorem cow_isolates_instance_mutations_witness :
    (applyOps ⟨0, 1, 0⟩ ⟨[[(EKey.str "x", 5)], []], [[]], 0, 1, 0⟩
        [UIOp.addButton 7 (EKey.str "y") false]).bstore[0]?
      = (⟨[[(EKey.str "x", 5)], []], [[]], 0, 1, 0⟩ : UIState).bstore[0]? :=
  (cow_isolates_instance_mutations ⟨0, 1, 0⟩ [0, 1] [0]
      ⟨[[(EKey.str "x", 5)], []], [[]], 0, 1, 0⟩
      [UIOp.addButton 7 (EKey.str "y") false]
      ⟨by decide, by decide, by decide, by decide, by decide,
        Or.inl rfl, Or.inl rfl, Or.inl rfl⟩).1 0 (by decide)

/-- C4: lookup in the merged tables of `__init_subclass__` resolves every key
to the most derived declarer — the class's own (last) declaration when it has
one, else the most derived ancestor whose table contains the key — in the
button, unbutton and command tables alike, with no error on duplicates. -/
theorem init_subclass_most_derived_wins (bases : List AncAttrs)
    (decls : List MemberDecl) (hwf : ∀ a ∈ bases, ancWF a = true) (k : EKey)
    (kc : String) :
    ((init_subclass bases decls).buttons.get? k
        = (lastDeclBtn decls true k).or (lastAncBtn bases k)) ∧
    ((init_subclass bases decls).unbuttons.get? k
        = (lastDeclBtn decls false k).or (lastAncUnbtn bases k)) ∧
    ((init_subclass bases decls).commands.get? kc
        = (lastDeclCmd decls kc).or (lastAncCmd bases kc)) := by
  obtain ⟨h1, h2, h3⟩ := basesFold_get? bases ⟨[], [], []⟩ hwf k kc
  unfold init_subclass
  refine ⟨?_, ?_, ?_⟩
  · rw [declsFold_buttons, h1]
    simp [Dict.get?, Option.or_none]
  · rw [declsFold_unbuttons, h2]
    simp [Dict.get?, Option.or_none]
  · rw [declsFold_commands, h3]
    simp [Dict.get?, Option.or_none]

/-- Witness for C4: one ancestor declares button `e` with handler 1 and the
new type declares button `e` with handler 2; the merged table resolves to the
most derived declarer. -/
theorem init_subclass_most_derived_wins_witness :
    (init_subclass
        [⟨some [(EKey.str "e", 1)], some [("p", 1)], some [(EKey.str "e", 1)]⟩]
        [⟨2, some (EKey.str "e", true), some "p"⟩]).buttons.get? (EKey.str "e")
      = (lastDeclBtn [⟨2, some (EKey.str "e", true), some "p"⟩] true
            (EKey.str "e")).or
          (lastAncBtn
            [⟨some [(EKey.str "e", 1)], some [("p", 1)], some [(EKey.str "e", 1)]⟩]
            (EKey.str "e")) :=
  (init_subclass_most_derived_wins
      [⟨some [(EKey.str "e", 1)], some [("p", 1)], some [(EKey.str "e", 1)]⟩]
      [⟨2, some (EKey.str "e", true), some "p"⟩]
      (by decide) (EKey.str "e") "p").1

/-- C10: `remove_button` removes the normalised emoji key from BOTH the press
table and the release table of the instance — a single call always touches
the two, never one — and performs the copy-on-write clone on both even when
the key is absent (the pop tolerates a missing key): afterwards neither
instance reference is the class object, while both class tables are
untouched. -/
theorem remove_button_pops_both (cls : ClsRefs) (st : UIState) (e : EKey)
    (hwf : RBWF cls st) :
    readT (remove_button cls st e).bstore (remove_button cls st e).bref
        = (readT st.bstore st.bref).pop (_parse_emoji e) ∧
    readT (remove_button cls st e).bstore (remove_button cls st e).uref
        = (readT st.bstore st.uref).pop (_parse_emoji e) ∧
    (remove_button cls st e).bref ≠ cls.buttons ∧
    (remove_button cls st e).uref ≠ cls.unbuttons ∧
    (remove_button cls st e).bstore[cls.buttons]? = st.bstore[cls.buttons]? ∧
    (remove_button cls st e).bstore[cls.unbuttons]? = st.bstore[cls.unbuttons]? := by
  obtain ⟨hBlt, hUlt, hBU, hbo, huo⟩ := hwf
  set f : Dict EKey Nat → Dict EKey Nat := fun d => d.pop (_parse_emoji e) with hfdef
  have hbs : (remove_button cls st e).bstore
      = (cowMutate (cowMutate st.bstore st.bref cls.buttons f).1
          st.uref cls.unbuttons f).1 := rfl
  have hbr : (remove_button cls st e).bref
      = (cowMutate st.bstore st.bref cls.buttons f).2 := rfl
  have hur : (remove_button cls st e).uref
      = (cowMutate (cowMutate st.bstore st.bref cls.buttons f).1
          st.uref cls.unbuttons f).2 := rfl
  have hlen1 : st.bstore.length
      ≤ (cowMutate st.bstore st.bref cls.buttons f).1.length :=
    cowMutate_len_le st.bstore st.bref cls.buttons f
  have hr1 : (cowMutate st.bstore st.bref cls.buttons f).2
      = if st.bref = cls.buttons then st.bstore.length else st.bref :=
    cowMutate_snd st.bstore st.bref cls.buttons f
  have hl1 : (cowMutate st.bstore st.bref cls.buttons f).1.length
      = if st.bref = cls.buttons then st.bstore.length + 1 else st.bstore.length :=
    cowMutate_len st.bstore st.bref cls.buttons f
  have hu_lt : st.uref = cls.unbuttons ∨ st.uref < st.bstore.length := by
    rcases huo with h | h
    · exact Or.inl h
    · exact Or.inr h.1
  have hu_lt2 : st.uref < st.bstore.length := by
    rcases hu_lt with h | h
    · rw [h]; exact hUlt
    · exact h
  have hb_lt : st.bref = cls.buttons ∨ st.bref < st.bstore.length := by
    rcases hbo with h | h
    · exact Or.inl h
    · exact Or.inr h.1
  refine ⟨?_, ?_, ?_, ?_, ?_, ?_⟩
  · -- press table: the clone of the buttons table got the key popped
    rw [hbs, hbr]
    have hrlt : (cowMutate st.bstore st.bref cls.buttons f).2
        < (cowMutate st.bstore st.bref cls.buttons f).1.length := by
      rw [hr1, hl1]
      by_cases hbB : st.bref = cls.buttons
      · simp [hbB]
      · simp only [if_neg hbB]
        exact (hbo.resolve_left hbB).1
    have hri : st.uref = cls.unbuttons ∨
        (cowMutate st.bstore st.bref cls.buttons f).2 ≠ st.uref := by
      rcases huo with h | h
      · exact Or.inl h
      · right
        rw [hr1]
        by_cases hbB : st.bref = cls.buttons
        · simp only [if_pos hbB]
          exact Nat.ne_of_gt h.1
        · simp only [if_neg hbB]
          exact h.2.2.2
    have hstep2 : (cowMutate (cowMutate st.bstore st.bref cls.buttons f).1
          st.uref cls.unbuttons f).1[(cowMutate st.bstore st.bref cls.buttons f).2]?
        = (cowMutate st.bstore st.bref cls.buttons f).1[(cowMutate st.bstore st.bref
            cls.buttons f).2]? :=
      cowMutate_frame _ st.uref cls.unbuttons f _ hrlt hri
    rw [readT, hstep2, ← readT]
    exact cowMutate_read_self st.bstore st.bref cls.buttons f hb_lt
  · -- release table
    rw [hbs, hur]
    have hstep1 : (cowMutate st.bstore st.bref cls.buttons f).1[st.uref]?
        = st.bstore[st.uref]? := by
      apply cowMutate_frame st.bstore st.bref cls.buttons f st.uref hu_lt2
      rcases hbo with h | h
      · exact Or.inl h
      · exact Or.inr (Ne.symm h.2.2.2)
    have h1 : readT (cowMutate st.bstore st.bref cls.buttons f).1 st.uref
        = readT st.bstore st.uref := by
      rw [readT, readT, hstep1]
    have h2 := cowMutate_read_self (cowMutate st.bstore st.bref cls.buttons f).1
      st.uref cls.unbuttons f
      (by
        rcases huo with h | h
        · exact Or.inl h
        · exact Or.inr (Nat.lt_of_lt_of_le h.1 hlen1))
    rw [h2, h1]
  · -- bref no longer the class buttons object
    rw [hbr, hr1]
    by_cases hbB : st.bref = cls.buttons
    · simp only [if_pos hbB]
      exact Nat.ne_of_gt hBlt
    · simp only [if_neg hbB]
      exact hbB
  · -- uref no longer the class unbuttons object
    rw [hur, cowMutate_snd]
    by_cases huU : st.uref = cls.unbuttons
    · simp only [if_pos huU]
      exact Nat.ne_of_gt (Nat.lt_of_lt_of_le hUlt hlen1)
    · simp only [if_neg huU]
      exact huU
  · -- the class press table is untouched
    rw [hbs]
    have hstep2 : (cowMutate (cowMutate st.bstore st.bref cls.buttons f).1
          st.uref cls.unbuttons f).1[cls.buttons]?
        = (cowMutate st.bstore st.bref cls.buttons f).1[cls.buttons]? := by
      apply cowMutate_frame _ st.uref cls.unbuttons f cls.buttons
        (Nat.lt_of_lt_of_le hBlt hlen1)
      rcases huo with h | h
      · exact Or.inl h
      · exact Or.inr (Ne.symm h.2.1)
    have hstep1 : (cowMutate st.bstore st.bref cls.buttons f).1[cls.buttons]?
        = st.bstore[cls.buttons]? := by
      apply cowMutate_frame st.bstore st.bref cls.buttons f cls.buttons hBlt
      rcases hbo with h | h
      · exact Or.inl h
      · exact Or.inr (Ne.symm h.2.1)
    rw [hstep2, hstep1]
  · -- the class release table is untouched
    rw [hbs]
    have hstep2 : (cowMutate (cowMutate st.bstore st.bref cls.buttons f).1
          st.uref cls.unbuttons f).1[cls.unbuttons]?
        = (cowMutate st.bstore st.bref cls.buttons f).1[cls.unbuttons]? := by
      apply cowMutate_frame _ st.uref cls.unbuttons f cls.unbuttons
        (Nat.lt_of_lt_of_le hUlt hlen1)
      by_cases huU : st.uref = cls.unbuttons
      · exact Or.inl huU
      · exact Or.inr (fun hh => huU hh.symm)
    have hstep1 : (cowMutate st.bstore st.bref cls.buttons f).1[cls.unbuttons]?
        = st.bstore[cls.unbuttons]? := by
      apply cowMutate_frame st.bstore st.bref cls.buttons f cls.unbuttons hUlt
      rcases hbo with h | h
      · exact Or.inl h
      · exact Or.inr (Ne.symm h.2.2.1)
    rw [hstep2, hstep1]

/-- Witness for C10: a fresh shared instance removes a button present in the
press table and absent from the release table; the instance's press table
loses the key. -/
theorem remove_button_pops_both_witness :
    readT (remove_button ⟨0, 1, 0⟩
          ⟨[[(EKey.num 3, 5)], [(EKey.num 3, 6)]], [[]], 0, 1, 0⟩
          (EKey.num 3)).bstore
        (remove_button ⟨0, 1, 0⟩
          ⟨[[(EKey.num 3, 5)], [(EKey.num 3, 6)]], [[]], 0, 1, 0⟩
          (EKey.num 3)).bref
      = (readT (⟨[[(EKey.num 3, 5)], [(EKey.num 3, 6)]], [[]], 0, 1, 0⟩
            : UIState).bstore 0).pop (_parse_emoji (EKey.num 3)) :=
  (remove_button_pops_both ⟨0, 1, 0⟩
      ⟨[[(EKey.num 3, 5)], [(EKey.num 3, 6)]], [[]], 0, 1, 0⟩ (EKey.num 3)
      ⟨by decide, by decide, by decide, Or.inl rfl, Or.inl rfl⟩).1

/-- C8: for an `IterableSource` over a backing sequence, every query sequence
— in order, out of order, repeated — answers each index `i` with the `i`-th
element of the backing sequence when `0 ≤ i <` its length and with
`InvalidPage` otherwise; the lazy cache fill neither skips nor duplicates
elements. -/
theorem iterSource_serves_backing {α : Type} (backing : List α) (qs : List Int) :
    runQueries ⟨backing, []⟩ qs =
      qs.map (fun i =>
        if i < 0 then Except.error ()
        else
          match backing[i.toNat]? with
          | some a => Except.ok a
          | none => Except.error ()) := by
  suffices hgen : ∀ (src : IterSrc α), src.cache ++ src.it = backing →
      runQueries src qs =
        qs.map (fun i =>
          if i < 0 then Except.error ()
          else
            match backing[i.toNat]? with
            | some a => Except.ok a
            | none => Except.error ()) by
    exact hgen ⟨backing, []⟩ rfl
  induction qs with
  | nil =>
    intro src hinv
    simp [runQueries]
  | cons q qs ih =>
    intro src hinv
    obtain ⟨hinv1, hres⟩ := get_page_step backing src hinv q
    simp only [runQueries, List.map_cons]
    rw [hres, ih _ hinv1]

/-- C9 (evaluating the failing input): a caller-supplied custom page source —
an object with `get_page` that is neither iterable nor async-iterable — makes
`Paginator.__init__` fall through every branch of its `if/elif` chain without
raising, so `self.pages` is never assigned; any later page access then raises
`AttributeError` instead of serving pages, while the spec-intended
classification stores the custom source. -/
theorem paginator_custom_source_dropped :
    paginator_init_pages ⟨false, false, true⟩ = Except.ok none ∧
    paginator_get_page_src none = Except.error () ∧
    paginator_init_pages_spec ⟨false, false, true⟩ = Except.ok (some PagesAttr.customSrc) :=
  ⟨rfl, rfl, rfl⟩

end DpyUI
